import Mathlib

/-!
Verification of the Scripture reference parsing engine of the
anki-bible-stats-server repository.

The Rust sources are shallowly embedded: a Rust `&str` becomes a
`List Char` (Rust `char` and Lean `Char` are both Unicode scalar values),
`Result<T, String>` becomes `Except ParseError T` where `ParseError`
records, per `Err(format!(...))` site, which error was produced together
with the values the source interpolates into the message, and `i64`
becomes `Int` with the two places where 64-bit behaviour is observable
made explicit: `parse::<i64>` fails beyond `i64::MAX`, and the range
count `e - s + 1` is computed with wrapping 64-bit semantics (the
release-profile behaviour of the arithmetic in the source).
-/

/-- `i64::MAX` = 2^63 - 1. -/
def i64Max : Int := 9223372036854775807

/-- Twos-complement wrap of an integer into the `i64` range,
the release-mode result of an overflowing `i64` computation. -/
def wrapI64 (n : Int) : Int := (n + 2 ^ 63) % 2 ^ 64 - 2 ^ 63

/-- Rust `char::is_control`: general category Cc,
i.e. U+0000..U+001F and U+007F..U+009F. -/
def isRustControl (c : Char) : Bool :=
  decide (c.toNat ≤ 0x1F) || (decide (0x7F ≤ c.toNat) && decide (c.toNat ≤ 0x9F))

/-- Rust `char::is_whitespace`: the Unicode White_Space property
(U+0009..U+000D, U+0020, U+0085, U+00A0, U+1680, U+2000..U+200A,
U+2028, U+2029, U+202F, U+205F, U+3000). -/
def isRustWhitespace (c : Char) : Bool :=
  let n := c.toNat
  n == 0x09 || n == 0x0A || n == 0x0B || n == 0x0C || n == 0x0D ||
  n == 0x20 || n == 0x85 || n == 0xA0 || n == 0x1680 ||
  (decide (0x2000 ≤ n) && decide (n ≤ 0x200A)) ||
  n == 0x2028 || n == 0x2029 || n == 0x202F || n == 0x205F || n == 0x3000

/-- Rust `str::trim`: drop leading and trailing whitespace characters. -/
def trimList (s : List Char) : List Char :=
  ((s.dropWhile isRustWhitespace).reverse.dropWhile isRustWhitespace).reverse

/-- Rust `char::to_ascii_lowercase`. -/
def asciiLower (c : Char) : Char :=
  if 0x41 ≤ c.toNat ∧ c.toNat ≤ 0x5A then Char.ofNat (c.toNat + 0x20) else c

/-- Rust `str::eq_ignore_ascii_case` (both operands valid UTF-8, so the
byte-wise comparison of the source coincides with this scalar-wise one). -/
def eqIgnoreAsciiCase (a b : List Char) : Bool :=
  a.map asciiLower == b.map asciiLower

/-- The character filter both parsers apply first
(`!c.is_control() && c != each of the seven listed codepoints`). -/
def keepChar (c : Char) : Bool :=
  !(isRustControl c) && !(c == '\u200B') && !(c == '\uFEFF') &&
  !(c == '\u202A') && !(c == '\u202B') && !(c == '\u202C') &&
  !(c == '\u202D') && !(c == '\u202E')

/-- The normalization step shared by `try_count_verses_in_reference` and
`try_parse_book_name`: `reference.chars().filter(...).collect::<String>()`. -/
def normalizeReference (s : List Char) : List Char :=
  s.filter keepChar

/-- Split a list at the last occurrence of `c`:
`some (before, after)` with `l = before ++ c :: after` and `c ∉ after`,
mirroring Rust `str::rfind` plus the two slices around the found index. -/
def splitLast (c : Char) : List Char → Option (List Char × List Char)
  | [] => none
  | x :: xs =>
    match splitLast c xs with
    | some (b, a) => some (x :: b, a)
    | none => if x = c then some ([], xs) else none

/-- Split a list at the first occurrence of `c`, mirroring Rust
`str::find` plus the two slices around the found index. -/
def splitFirst (c : Char) : List Char → Option (List Char × List Char)
  | [] => none
  | x :: xs =>
    if x = c then some ([], xs)
    else
      match splitFirst c xs with
      | some (b, a) => some (x :: b, a)
      | none => none

/-- One constructor per `Err(format!(...))` site of the two parsers,
carrying the values the source interpolates into the message. -/
inductive ParseError where
  | noColonFound (reference : List Char)
  | noColonOrSpace (reference : List Char)
  | invalidRange (versePart reference : List Char)
  | invalidVerse (versePart reference : List Char)
  | noBookName (reference : List Char)
  | noSpaceFound (reference : List Char)
deriving DecidableEq

instance {ε α : Type} [DecidableEq ε] [DecidableEq α] : DecidableEq (Except ε α)
  | .ok a, .ok b =>
    if h : a = b then isTrue (congrArg Except.ok h)
    else isFalse fun hq => h (Except.ok.inj hq)
  | .ok _, .error _ => isFalse fun hq => Except.noConfusion hq
  | .error _, .ok _ => isFalse fun hq => Except.noConfusion hq
  | .error a, .error b =>
    if h : a = b then isTrue (congrArg Except.error h)
    else isFalse fun hq => h (Except.error.inj hq)

/-- Numeric value of a digit run (the value `digits.parse::<i64>()`
computes when it succeeds). -/
def digitsToNat (ds : List Char) : Nat :=
  ds.foldl (fun acc c => acc * 10 + (c.toNat - 48)) 0

/-- `parse_verse_number` (identical in both verse_parser.rs files):
take the maximal leading run of ASCII digits and `parse::<i64>` it;
the parse fails on an empty run and on i64 overflow. -/
def parse_verse_number (s : List Char) : Option Int :=
  let digits := s.takeWhile Char.isDigit
  if digits.isEmpty then none
  else if digitsToNat digits ≤ 9223372036854775807 then
    some (digitsToNat digits : Int)
  else none

/-- `is_single_chapter_book` from ankistats/src/verse_parser.rs. -/
def is_single_chapter_book (bookName : List Char) : Bool :=
  ["Obadiah".data, "Philemon".data, "2 John".data, "3 John".data,
    "Jude".data].any fun book => eqIgnoreAsciiCase bookName book

/-- Lines 36-58 of ankistats/src/verse_parser.rs: extract the verse part
from the already-normalized reference — everything after the last colon,
or for a single-chapter book everything after the last space. -/
def extract_verse_part (ref : List Char) : Except ParseError (List Char) :=
  match splitLast ':' ref with
  | some (_, after) => .ok after
  | none =>
    match splitLast ' ' ref with
    | some (bookName, after) =>
      if is_single_chapter_book bookName then .ok after
      else .error (.noColonFound ref)
    | none => .error (.noColonOrSpace ref)

/-- Lines 61-87 of ankistats/src/verse_parser.rs: count the verses named
by a trimmed verse part (`vp`); `ref` is only interpolated into errors. -/
def countLocator (vp ref : List Char) : Except ParseError Int :=
  match splitFirst '-' vp with
  | some (startRaw, endRaw) =>
    match parse_verse_number (trimList startRaw),
        parse_verse_number (trimList endRaw) with
    | some s, some e =>
      if s ≤ e then .ok (wrapI64 (e - s + 1))
      else .error (.invalidRange vp ref)
    | _, _ => .error (.invalidRange vp ref)
  | none =>
    match parse_verse_number vp with
    | some _ => .ok 1
    | none => .error (.invalidVerse vp ref)

/-- `try_count_verses_in_reference` from ankistats/src/verse_parser.rs. -/
def try_count_verses_in_reference (reference : List Char) :
    Except ParseError Int :=
  let ref := normalizeReference reference
  match extract_verse_part ref with
  | .error e => .error e
  | .ok versePart => countLocator (trimList versePart) ref

/-- `count_verses_in_reference` from ankistats/src/verse_parser.rs:
the error-swallowing wrapper (the diagnostic print is a side effect
outside the value semantics). -/
def count_verses_in_reference (reference : List Char) : Int :=
  match try_count_verses_in_reference reference with
  | .ok count => count
  | .error _ => 1

/-- `normalize_book_name` from ankistats/src/book_name_parser.rs. -/
def normalize_book_name (bookName : List Char) : List Char :=
  if eqIgnoreAsciiCase bookName "Psalm".data then "Psalms".data else bookName

/-- `try_parse_book_name` from ankistats/src/book_name_parser.rs. -/
def try_parse_book_name (reference : List Char) :
    Except ParseError (List Char) :=
  let ref := normalizeReference reference
  match splitLast ' ' ref with
  | some (before, _) =>
    let bookName := trimList before
    if bookName.isEmpty then .error (.noBookName ref)
    else .ok (normalize_book_name bookName)
  | none => .error (.noSpaceFound ref)

/-- `parse_book_name` from ankistats/src/book_name_parser.rs:
the error-swallowing wrapper. -/
def parse_book_name (reference : List Char) : Option (List Char) :=
  match try_parse_book_name reference with
  | .ok bookName => some bookName
  | .error _ => none

namespace Legacy

/-- The legacy `count_verses_in_reference` from src/verse_parser.rs of the
root crate: no normalization, no single-chapter-book handling, and every
failure returns 1 inline. -/
def count_verses_in_reference (reference : List Char) : Int :=
  match splitLast ':' reference with
  | none => 1
  | some (_, versePart0) =>
    let versePart := trimList versePart0
    match splitFirst '-' versePart with
    | some (startRaw, endRaw) =>
      match parse_verse_number (trimList startRaw),
          parse_verse_number (trimList endRaw) with
      | some s, some e => if s ≤ e then wrapI64 (e - s + 1) else 1
      | _, _ => 1
    | none =>
      match parse_verse_number versePart with
      | some _ => 1
      | none => 1

end Legacy

/-- The characters the normalization step is specified to remove:
Unicode control characters plus the seven listed format codepoints. -/
def isRemovedChar (c : Char) : Bool :=
  isRustControl c || c == '\u200B' || c == '\uFEFF' || c == '\u202A' ||
  c == '\u202B' || c == '\u202C' || c == '\u202D' || c == '\u202E'

theorem keepChar_eq_not_removed (c : Char) : keepChar c = !(isRemovedChar c) := by
  simp [keepChar, isRemovedChar, Bool.not_or, Bool.and_assoc]

theorem splitLast_eq_none_iff (c : Char) (l : List Char) :
    splitLast c l = none ↔ c ∉ l := by
  induction l with
  | nil => simp [splitLast]
  | cons x xs ih =>
    rw [splitLast]
    cases h : splitLast c xs with
    | some p =>
      obtain ⟨b, a⟩ := p
      have hmem : c ∈ xs := by
        by_contra hc
        rw [ih.mpr hc] at h
        exact Option.noConfusion h
      simp [hmem]
    | none =>
      have hx : c ∉ xs := ih.mp h
      by_cases hxc : x = c
      · simp [hxc]
      · simp only [List.mem_cons, not_or]
        simp [hxc, hx]
        exact fun hh => hxc hh.symm

theorem splitLast_append_cons (c : Char) (ys : List Char) (hys : c ∉ ys) :
    ∀ xs : List Char, splitLast c (xs ++ c :: ys) = some (xs, ys) := by
  intro xs
  induction xs with
  | nil =>
    rw [List.nil_append, splitLast, (splitLast_eq_none_iff c ys).mpr hys]
    simp
  | cons x xs ih => rw [List.cons_append, splitLast, ih]

theorem parse_verse_number_bounds {s : List Char} {v : Int}
    (h : parse_verse_number s = some v) : 0 ≤ v ∧ v ≤ i64Max := by
  unfold parse_verse_number at h
  by_cases h1 : (s.takeWhile Char.isDigit).isEmpty <;> simp [h1] at h
  by_cases h2 : digitsToNat (s.takeWhile Char.isDigit) ≤ 9223372036854775807 <;>
    simp [h2] at h
  subst h
  constructor
  · exact Int.ofNat_nonneg _
  · unfold i64Max; exact_mod_cast h2

theorem wrapI64_eq_self {m : Int} (h1 : 1 ≤ m) (h2 : m ≤ i64Max) :
    wrapI64 m = m := by
  unfold wrapI64
  unfold i64Max at h2
  omega

theorem wrapI64_top : wrapI64 (i64Max + 1) = -(i64Max + 1) := by decide

theorem countLocator_ok {vp ref : List Char} {n : Int}
    (h : countLocator vp ref = .ok n) : 1 ≤ n ∨ n = -9223372036854775808 := by
  unfold countLocator at h
  cases hs : splitFirst '-' vp with
  | none =>
    rw [hs] at h
    cases hp : parse_verse_number vp with
    | none => rw [hp] at h; exact Except.noConfusion h
    | some v =>
      rw [hp] at h
      left
      have := Except.ok.inj h
      omega
  | some p =>
    obtain ⟨b, a⟩ := p
    simp only [hs] at h
    cases hp : parse_verse_number (trimList b) with
    | none => simp only [hp] at h; exact Except.noConfusion h
    | some sv =>
      cases hq : parse_verse_number (trimList a) with
      | none => simp only [hp, hq] at h; exact Except.noConfusion h
      | some ev =>
        simp only [hp, hq] at h
        by_cases hle : sv ≤ ev
        · rw [if_pos hle] at h
          have hn := Except.ok.inj h
          obtain ⟨hs0, hsM⟩ := parse_verse_number_bounds hp
          obtain ⟨he0, heM⟩ := parse_verse_number_bounds hq
          unfold wrapI64 at hn
          unfold i64Max at hsM heM
          omega
        · rw [if_neg hle] at h; exact Except.noConfusion h

/-- C7: for every input string, the normalization step removes exactly the
characters that are Unicode control characters or one of the seven
codepoints U+200B, U+FEFF, U+202A, U+202B, U+202C, U+202D, U+202E, and
nothing else, preserving the relative order of the remaining characters
(the result is a sublist in which removed characters occur zero times and
every other character keeps its multiplicity); it is total, and in
particular maps the empty string to the empty string. -/
theorem C7_normalization_removes_exactly :
    ∀ s : List Char,
      List.Sublist (normalizeReference s) s ∧
      (∀ c : Char, isRemovedChar c = true → (normalizeReference s).count c = 0) ∧
      (∀ c : Char, isRemovedChar c = false →
        (normalizeReference s).count c = s.count c) ∧
      normalizeReference [] = [] := by
  intro s
  refine ⟨List.filter_sublist s, ?_, ?_, rfl⟩
  · intro c hc
    rw [List.count_eq_zero]
    intro hmem
    have := (List.mem_filter.mp hmem).2
    rw [keepChar_eq_not_removed, hc] at this
    exact Bool.noConfusion this
  · intro c hc
    unfold normalizeReference
    rw [List.count_filter]
    rw [keepChar_eq_not_removed, hc]
    rfl

/-- Witness for C7 at the string "a<U+202D>b": U+202D is removed, while
the letter a is kept with its multiplicity. -/
theorem C7_normalization_witness :
    isRemovedChar '\u202D' = true ∧
      (normalizeReference "a\u202Db".data).count '\u202D' = 0 ∧
      isRemovedChar 'a' = false ∧
      (normalizeReference "a\u202Db".data).count 'a' =
        "a\u202Db".data.count 'a' :=
  ⟨by decide, (C7_normalization_removes_exactly _).2.1 _ (by decide),
    by decide, (C7_normalization_removes_exactly _).2.2.1 _ (by decide)⟩

/-- C8: normalization is idempotent, normalize (normalize s) = normalize s
for every string s. -/
theorem C8_normalization_idempotent :
    ∀ s : List Char,
      normalizeReference (normalizeReference s) = normalizeReference s := by
  intro s
  simp [normalizeReference, List.filter_filter, Bool.and_self]


/-- C5: the fallback entry points are total over every input string and
map every error of the fallible core to the safe default: either
count_verses_in_reference returns 1, or its value is exactly the Ok value
of try_count_verses_in_reference; and parse_book_name is none, or it is
some of exactly the Ok value of try_parse_book_name. -/
theorem C5_fallback_total :
    ∀ reference : List Char,
      (count_verses_in_reference reference = 1 ∨
        try_count_verses_in_reference reference =
          .ok (count_verses_in_reference reference)) ∧
      (parse_book_name reference = none ∨
        ∃ bookName, try_parse_book_name reference = .ok bookName ∧
          parse_book_name reference = some bookName) := by
  intro reference
  constructor
  · unfold count_verses_in_reference
    cases h : try_count_verses_in_reference reference with
    | ok m => right; rfl
    | error e => left; rfl
  · unfold parse_book_name
    cases h : try_parse_book_name reference with
    | ok b => right; exact ⟨b, rfl, rfl⟩
    | error e => left; rfl

/-- C6 counterexample: on the citation Jude 0-9223372036854775807 the
64-bit range count e - s + 1 overflows and wraps, so the fallback counter
returns -2^63, which is not at least 1; the claim that every returned
count and every Ok value is at least 1 is therefore false as stated. -/
theorem C6_counterexample :
    count_verses_in_reference "Jude 0-9223372036854775807".data =
        -9223372036854775808 ∧
      ¬(1 ≤ count_verses_in_reference "Jude 0-9223372036854775807".data) :=
  ⟨by decide, by decide⟩

/-- C6 (amended): for every input string, count_verses_in_reference
returns a value that is at least 1 — and likewise every successful result
Ok(n) of try_count_verses_in_reference has n at least 1 — except in the
single wrapping case where the locator is a range parsing to start 0 and
end i64::MAX, in which the returned value is the wrapped count -2^63. -/
theorem C6_count_lower_bound_amended :
    ∀ reference : List Char,
      (1 ≤ count_verses_in_reference reference ∨
        count_verses_in_reference reference = -9223372036854775808) ∧
      (∀ n : Int, try_count_verses_in_reference reference = .ok n →
        1 ≤ n ∨ n = -9223372036854775808) := by
  intro reference
  have key : ∀ n : Int, try_count_verses_in_reference reference = .ok n →
      1 ≤ n ∨ n = -9223372036854775808 := by
    intro n h
    unfold try_count_verses_in_reference at h
    cases he : extract_verse_part (normalizeReference reference) with
    | error e => simp only [he] at h; exact Except.noConfusion h
    | ok vp => simp only [he] at h; exact countLocator_ok h
  refine ⟨?_, key⟩
  unfold count_verses_in_reference
  cases h : try_count_verses_in_reference reference with
  | ok m => exact key m h
  | error e => exact Or.inl (le_refl 1)

/-- Witness for C6 at the citation Jude 24-25, whose successful count 2
is at least 1. -/
theorem C6_count_lower_bound_witness :
    try_count_verses_in_reference "Jude 24-25".data = .ok 2 ∧
      (1 ≤ (2 : Int) ∨ (2 : Int) = -9223372036854775808) :=
  ⟨by decide, (C6_count_lower_bound_amended "Jude 24-25".data).2 2 (by decide)⟩

/-- C9: the entry points are deterministic — equal input strings always
produce equal results for count_verses_in_reference, parse_book_name and
their fallible cores (the embedding is a pure function of the input with
no shared state). -/
theorem C9_deterministic :
    ∀ s t : List Char, s = t →
      count_verses_in_reference s = count_verses_in_reference t ∧
      parse_book_name s = parse_book_name t ∧
      try_count_verses_in_reference s = try_count_verses_in_reference t ∧
      try_parse_book_name s = try_parse_book_name t := by
  intro s t h
  subst h
  exact ⟨rfl, rfl, rfl, rfl⟩

/-- Witness for C9 at two equal copies of the citation Genesis 1:1. -/
theorem C9_deterministic_witness :
    count_verses_in_reference "Genesis 1:1".data =
        count_verses_in_reference "Genesis 1:1".data ∧
      parse_book_name "Genesis 1:1".data = parse_book_name "Genesis 1:1".data ∧
      try_count_verses_in_reference "Genesis 1:1".data =
        try_count_verses_in_reference "Genesis 1:1".data ∧
      try_parse_book_name "Genesis 1:1".data =
        try_parse_book_name "Genesis 1:1".data :=
  C9_deterministic _ _ rfl

/-- C2: when the normalized input contains no colon, the verse counter
succeeds only for a single-chapter book — if the text strictly before the
last space is one of the five single-chapter names (case-insensitively),
the locator is the text after that space; otherwise it fails with the
NoColonFound error; and with no colon and no space at all it fails with
the NoColonOrSpace error. In particular, Jude 24-25 counts 2 verses and
Genesis 1 is an error, with fallback count 1. -/
theorem C2_no_colon_single_chapter :
    (∀ reference : List Char,
      ':' ∉ normalizeReference reference →
        (∀ bookName locator,
          splitLast ' ' (normalizeReference reference) =
              some (bookName, locator) →
            (is_single_chapter_book bookName = true →
              extract_verse_part (normalizeReference reference) =
                .ok locator) ∧
            (is_single_chapter_book bookName = false →
              try_count_verses_in_reference reference =
                .error (.noColonFound (normalizeReference reference)))) ∧
        (' ' ∉ normalizeReference reference →
          try_count_verses_in_reference reference =
            .error (.noColonOrSpace (normalizeReference reference)))) ∧
    try_count_verses_in_reference "Jude 24-25".data = .ok 2 ∧
    try_count_verses_in_reference "Genesis 1".data =
      .error (.noColonFound "Genesis 1".data) ∧
    count_verses_in_reference "Genesis 1".data = 1 := by
  refine ⟨?_, by decide, by decide, by decide⟩
  intro reference hcolon
  have hnone : splitLast ':' (normalizeReference reference) = none :=
    (splitLast_eq_none_iff _ _).mpr hcolon
  constructor
  · intro bookName locator hsp
    constructor
    · intro hsc
      simp [extract_verse_part, hnone, hsp, hsc]
    · intro hsc
      simp [try_count_verses_in_reference, extract_verse_part, hnone, hsp, hsc]
  · intro hspace
    have hnosp : splitLast ' ' (normalizeReference reference) = none :=
      (splitLast_eq_none_iff _ _).mpr hspace
    simp [try_count_verses_in_reference, extract_verse_part, hnone, hnosp]

/-- Witness for C2 at the citation Jude 24-25: no colon, last space splits
off the single-chapter book Jude, and the locator is 24-25. -/
theorem C2_no_colon_witness :
    extract_verse_part (normalizeReference "Jude 24-25".data) =
      .ok "24-25".data :=
  ((C2_no_colon_single_chapter.1 "Jude 24-25".data (by decide)).1
    "Jude".data "24-25".data (by decide)).1 (by decide)

/-- C3: try_parse_book_name normalizes, then fails with NoSpaceFound when
the normalized string has no space, fails with the empty-book-name error
when the text before the last space trims to empty, and otherwise returns
Ok of the trimmed text before the last space with exactly the one Psalm
alias applied (case-insensitively, Psalm becomes Psalms; anything else is
unchanged); parse_book_name is Some of the Ok value and None exactly on
error, so parse_book_name of Genesis and of the empty string are None. -/
theorem C3_book_name_extraction :
    (∀ reference : List Char,
      (splitLast ' ' (normalizeReference reference) = none →
        try_parse_book_name reference =
          .error (.noSpaceFound (normalizeReference reference))) ∧
      (∀ before locator,
        splitLast ' ' (normalizeReference reference) = some (before, locator) →
          (trimList before = [] →
            try_parse_book_name reference =
              .error (.noBookName (normalizeReference reference))) ∧
          (trimList before ≠ [] →
            try_parse_book_name reference =
              .ok (normalize_book_name (trimList before)) ∧
            (eqIgnoreAsciiCase (trimList before) "Psalm".data = true →
              normalize_book_name (trimList before) = "Psalms".data) ∧
            (eqIgnoreAsciiCase (trimList before) "Psalm".data = false →
              normalize_book_name (trimList before) = trimList before))) ∧
      (∀ bookName, try_parse_book_name reference = .ok bookName ↔
        parse_book_name reference = some bookName) ∧
      ((∃ e, try_parse_book_name reference = .error e) ↔
        parse_book_name reference = none)) ∧
    parse_book_name "Genesis".data = none ∧
    parse_book_name "".data = none := by
  refine ⟨?_, by decide, by decide⟩
  intro reference
  refine ⟨?_, ?_, ?_, ?_⟩
  · intro hnone
    simp [try_parse_book_name, hnone]
  · intro before locator hsp
    constructor
    · intro hemp
      simp [try_parse_book_name, hsp, hemp]
    · intro hne
      have hisE : (trimList before).isEmpty = false := by
        cases h : trimList before with
        | nil => exact absurd h hne
        | cons y ys => rfl
      refine ⟨?_, ?_, ?_⟩
      · simp [try_parse_book_name, hsp, hisE]
      · intro hps
        simp [normalize_book_name, hps]
      · intro hps
        simp [normalize_book_name, hps]
  · intro bookName
    unfold parse_book_name
    cases h : try_parse_book_name reference with
    | ok b => simp
    | error e => simp
  · constructor
    · rintro ⟨e, he⟩
      simp [parse_book_name, he]
    · intro hn
      unfold parse_book_name at hn
      cases h : try_parse_book_name reference with
      | ok b => rw [h] at hn; exact absurd hn (by simp)
      | error e => exact ⟨e, rfl⟩

/-- Witness for C3 at the citation Psalm 119:105: the candidate book name
Psalm is extracted and the alias maps it to Psalms. -/
theorem C3_book_name_witness :
    try_parse_book_name "Psalm 119:105".data =
        .ok (normalize_book_name (trimList "Psalm".data)) ∧
      normalize_book_name (trimList "Psalm".data) = "Psalms".data := by
  have h := ((C3_book_name_extraction.1 "Psalm 119:105".data).2.1
      "Psalm".data "119:105".data (by decide)).2 (by decide)
  exact ⟨h.1, h.2.1 (by decide)⟩

theorem isEmpty_true_iff (l : List Char) : l.isEmpty = true ↔ l = [] := by
  cases l <;> simp

theorem count_eq_of_try {r : List Char} {n : Int}
    (h : try_count_verses_in_reference r = .ok n) :
    count_verses_in_reference r = n := by
  unfold count_verses_in_reference
  rw [h]

theorem count_eq_one_of_try_error {r : List Char} {e : ParseError}
    (h : try_count_verses_in_reference r = .error e) :
    count_verses_in_reference r = 1 := by
  unfold count_verses_in_reference
  rw [h]

/-- C1 counterexample: on the citation Jude 0-9223372036854775807 the
locator is a well-formed range with s = 0 and e = i64::MAX = e ≥ s, yet
try_count_verses_in_reference does not return Ok(e − s + 1): the 64-bit
addition wraps and it returns Ok(−2^63) instead. -/
theorem C1_range_count_counterexample :
    extract_verse_part
        (normalizeReference "Jude 0-9223372036854775807".data) =
      .ok "0-9223372036854775807".data ∧
    splitFirst '-' (trimList "0-9223372036854775807".data) =
      some ("0".data, "9223372036854775807".data) ∧
    parse_verse_number (trimList "0".data) = some 0 ∧
    parse_verse_number (trimList "9223372036854775807".data) =
      some 9223372036854775807 ∧
    (0 : Int) ≤ 9223372036854775807 ∧
    try_count_verses_in_reference "Jude 0-9223372036854775807".data ≠
      .ok ((9223372036854775807 : Int) - 0 + 1) := by decide

/-- C1 (amended): for a citation whose extracted locator splits at the
first hyphen into sides whose digit runs parse as s and e: if e ≥ s and
the inclusive count e − s + 1 is at most i64::MAX, the counter returns
Ok(e − s + 1), so e = s yields 1; if e ≥ s but e − s + 1 exceeds i64::MAX
(only possible for s = 0, e = i64::MAX) the 64-bit addition wraps and it
returns Ok(−2^63); if e < s, or the digit-parse of either side fails (no
leading digit, or overflow), it returns the InvalidRange error and the
fallback count_verses_in_reference returns 1. -/
theorem C1_range_count_amended :
    ∀ reference versePart startRaw endRaw : List Char,
      extract_verse_part (normalizeReference reference) = .ok versePart →
      splitFirst '-' (trimList versePart) = some (startRaw, endRaw) →
        (∀ s e : Int, parse_verse_number (trimList startRaw) = some s →
          parse_verse_number (trimList endRaw) = some e →
            (s ≤ e → e - s + 1 ≤ i64Max →
              try_count_verses_in_reference reference = .ok (e - s + 1)) ∧
            (s ≤ e → i64Max < e - s + 1 →
              try_count_verses_in_reference reference =
                .ok (-9223372036854775808)) ∧
            (e < s →
              try_count_verses_in_reference reference =
                .error (.invalidRange (trimList versePart)
                  (normalizeReference reference)) ∧
              count_verses_in_reference reference = 1)) ∧
        ((parse_verse_number (trimList startRaw) = none ∨
            parse_verse_number (trimList endRaw) = none) →
          try_count_verses_in_reference reference =
            .error (.invalidRange (trimList versePart)
              (normalizeReference reference)) ∧
          count_verses_in_reference reference = 1) := by
  intro reference versePart startRaw endRaw hev hsp
  have htry : try_count_verses_in_reference reference =
      countLocator (trimList versePart) (normalizeReference reference) := by
    unfold try_count_verses_in_reference
    simp only [hev]
  constructor
  · intro s e hs he
    refine ⟨?_, ?_, ?_⟩
    · intro hle hfit
      rw [htry]
      unfold countLocator
      simp only [hsp, hs, he]
      rw [if_pos hle]
      have h1 : 1 ≤ e - s + 1 := by omega
      rw [wrapI64_eq_self h1 hfit]
    · intro hle hbig
      rw [htry]
      unfold countLocator
      simp only [hsp, hs, he]
      rw [if_pos hle]
      obtain ⟨hs0, hsM⟩ := parse_verse_number_bounds hs
      obtain ⟨he0, heM⟩ := parse_verse_number_bounds he
      have heq : e - s + 1 = i64Max + 1 := by
        unfold i64Max at hsM heM hbig ⊢
        omega
      rw [heq, wrapI64_top]
      unfold i64Max
      norm_num
    · intro hlt
      have hnle : ¬(s ≤ e) := by omega
      have herr : try_count_verses_in_reference reference =
          .error (.invalidRange (trimList versePart)
            (normalizeReference reference)) := by
        rw [htry]
        unfold countLocator
        simp only [hsp, hs, he]
        rw [if_neg hnle]
      exact ⟨herr, count_eq_one_of_try_error herr⟩
  · intro hn
    have herr : try_count_verses_in_reference reference =
        .error (.invalidRange (trimList versePart)
          (normalizeReference reference)) := by
      rw [htry]
      unfold countLocator
      simp only [hsp]
      cases hn with
      | inl h1 => simp only [h1]
      | inr h2 =>
        cases hf : parse_verse_number (trimList startRaw) with
        | none => simp only [hf]
        | some sv => simp only [hf, h2]
    exact ⟨herr, count_eq_one_of_try_error herr⟩

/-- Witness for C1 at the citation Romans 5:1-8: the range 1-8 counts
8 − 1 + 1 = 8 verses. -/
theorem C1_range_count_witness :
    try_count_verses_in_reference "Romans 5:1-8".data =
      .ok ((8 : Int) - 1 + 1) :=
  (((C1_range_count_amended "Romans 5:1-8".data "1-8".data "1".data "8".data
      (by decide) (by decide)).1 1 8 (by decide) (by decide)).1
    (by decide) (by decide))

/-- C4 counterexample: the locator side 9223372036854775808 (i64::MAX + 1)
has a non-empty maximal leading run of ASCII digits, yet parse_verse_number
returns none because the i64 parse overflows — so parsing does not fail
"exactly when there is no leading digit". -/
theorem C4_parse_digits_counterexample :
    parse_verse_number "9223372036854775808".data = none ∧
      "9223372036854775808".data.takeWhile Char.isDigit ≠ [] := by decide

/-- C4 (amended): a locator side is parsed by taking its maximal leading
run of ASCII digits, discarding everything after the digits; parsing
fails (None) exactly when there is no leading digit or the value of the digit run
exceeds i64::MAX, and on success the value is the number the digit
run denotes. Verse-letter suffixes are consequently ignored: for every
book prefix x, count_verses_in_reference of x ++ " 1:4a" and of
x ++ " 1:4" are both 1, and Colossians 1:9a-12 counts 4. -/
theorem C4_parse_digits_amended :
    (∀ s : List Char,
      (parse_verse_number s = none ↔
        (s.takeWhile Char.isDigit = [] ∨
          9223372036854775807 < digitsToNat (s.takeWhile Char.isDigit))) ∧
      (∀ n : Int, parse_verse_number s = some n →
        n = digitsToNat (s.takeWhile Char.isDigit))) ∧
    (∀ x : List Char,
      count_verses_in_reference (x ++ " 1:4a".data) = 1 ∧
      count_verses_in_reference (x ++ " 1:4".data) = 1) ∧
    count_verses_in_reference "Colossians 1:9a-12".data = 4 := by
  refine ⟨?_, ?_, by decide⟩
  · intro s
    constructor
    · constructor
      · intro h
        unfold parse_verse_number at h
        by_cases h1 : (s.takeWhile Char.isDigit).isEmpty
        · exact Or.inl ((isEmpty_true_iff _).mp h1)
        · right
          rw [if_neg h1] at h
          by_cases h2 :
              digitsToNat (s.takeWhile Char.isDigit) ≤ 9223372036854775807
          · rw [if_pos h2] at h
            exact Option.noConfusion h
          · omega
      · intro h
        unfold parse_verse_number
        by_cases h1 : (s.takeWhile Char.isDigit).isEmpty
        · simp [h1]
        · cases h with
          | inl hl => exact absurd ((isEmpty_true_iff _).mpr hl) h1
          | inr hr =>
            have hnle :
                ¬ digitsToNat (s.takeWhile Char.isDigit) ≤
                  9223372036854775807 := by omega
            simp [h1, hnle]
    · intro n h
      unfold parse_verse_number at h
      by_cases h1 : (s.takeWhile Char.isDigit).isEmpty <;> simp [h1] at h
      by_cases h2 :
          digitsToNat (s.takeWhile Char.isDigit) ≤ 9223372036854775807 <;>
        simp [h2] at h
      exact h.symm
  · intro x
    constructor
    · have h1 : normalizeReference (x ++ " 1:4a".data)
          = (normalizeReference x ++ " 1".data) ++ ':' :: "4a".data := by
        unfold normalizeReference
        rw [List.filter_append, List.append_assoc]
        rfl
      have hsplit : splitLast ':' (normalizeReference (x ++ " 1:4a".data))
          = some (normalizeReference x ++ " 1".data, "4a".data) := by
        rw [h1]
        exact splitLast_append_cons ':' "4a".data (by decide) _
      have htry : try_count_verses_in_reference (x ++ " 1:4a".data) =
          .ok 1 := by
        unfold try_count_verses_in_reference extract_verse_part
        simp only [hsplit]
        rfl
      exact count_eq_of_try htry
    · have h1 : normalizeReference (x ++ " 1:4".data)
          = (normalizeReference x ++ " 1".data) ++ ':' :: "4".data := by
        unfold normalizeReference
        rw [List.filter_append, List.append_assoc]
        rfl
      have hsplit : splitLast ':' (normalizeReference (x ++ " 1:4".data))
          = some (normalizeReference x ++ " 1".data, "4".data) := by
        rw [h1]
        exact splitLast_append_cons ':' "4".data (by decide) _
      have htry : try_count_verses_in_reference (x ++ " 1:4".data) =
          .ok 1 := by
        unfold try_count_verses_in_reference extract_verse_part
        simp only [hsplit]
        rfl
      exact count_eq_of_try htry

/-- Witness for C4 at the locator side 4a: its parse succeeds and yields
the value of the digit run 4. -/
theorem C4_parse_digits_witness :
    (4 : Int) = digitsToNat ("4a".data.takeWhile Char.isDigit) :=
  (C4_parse_digits_amended.1 "4a".data).2 4 (by decide)

/-- C10: on every input that contains at least one colon and no character
removed by normalization, the legacy counter of the root crate and the
ankistats counter agree; the equivalence does not extend to colon-free
single-chapter-book citations — on Jude 24-25 the legacy counter returns
the fallback 1 while the ankistats counter returns the range count 2. -/
theorem C10_legacy_agreement :
    (∀ reference : List Char,
      ':' ∈ reference →
      (∀ c ∈ reference, isRemovedChar c = false) →
        Legacy.count_verses_in_reference reference =
          count_verses_in_reference reference) ∧
    Legacy.count_verses_in_reference "Jude 24-25".data = 1 ∧
    count_verses_in_reference "Jude 24-25".data = 2 := by
  refine ⟨?_, by decide, by decide⟩
  intro reference hcolon hclean
  have hnorm : normalizeReference reference = reference := by
    unfold normalizeReference
    apply List.filter_eq_self.mpr
    intro c hc
    rw [keepChar_eq_not_removed, hclean c hc]
    rfl
  cases hs : splitLast ':' reference with
  | none => exact absurd hcolon ((splitLast_eq_none_iff _ _).mp hs)
  | some p =>
    obtain ⟨b, a⟩ := p
    have htry : try_count_verses_in_reference reference =
        countLocator (trimList a) reference := by
      unfold try_count_verses_in_reference extract_verse_part
      rw [hnorm]
      simp only [hs]
    have hleg : Legacy.count_verses_in_reference reference =
        (match countLocator (trimList a) reference with
          | .ok n => n
          | .error _ => 1) := by
      unfold Legacy.count_verses_in_reference countLocator
      simp only [hs]
      cases hf : splitFirst '-' (trimList a) with
      | none =>
        cases hp : parse_verse_number (trimList a) with
        | some v => simp only [hf, hp]
        | none => simp only [hf, hp]
      | some q =>
        obtain ⟨sr, er⟩ := q
        cases hp : parse_verse_number (trimList sr) with
        | none => simp only [hf, hp]
        | some sv =>
          cases hq : parse_verse_number (trimList er) with
          | none => simp only [hf, hp, hq]
          | some ev =>
            by_cases hle : sv ≤ ev
            · simp only [hf, hp, hq, if_pos hle]
            · simp only [hf, hp, hq, if_neg hle]
    rw [hleg]
    unfold count_verses_in_reference
    rw [htry]

/-- Witness for C10 at the citation Genesis 1:1, which contains a colon
and no removable character, where both counters agree. -/
theorem C10_legacy_agreement_witness :
    Legacy.count_verses_in_reference "Genesis 1:1".data =
      count_verses_in_reference "Genesis 1:1".data :=
  C10_legacy_agreement.1 "Genesis 1:1".data (by decide) (by decide)

